import Mathlib

/-!
# Verification of the World Cup bracket-prediction frontend and its simulation contract

A shallow embedding of the repository's TypeScript frontend
(`frontend/src/components/*.tsx`, `frontend/src/types/index.ts`, and the
`BracketBuilder` component embedded in the plan document) together with the
parts of the simulation orchestrator that the specification describes.
JavaScript objects keyed by group label are embedded as association lists
preserving insertion order; JavaScript numbers that hold exact quantities
are embedded as `ℚ`/`ℕ`/`ℤ`.
-/

namespace WorldCupPrediction

/-- `type TournamentFormat = "32_team" | "48_team"` (frontend/src/types/index.ts). -/
inductive TournamentFormat where
  | t32 : TournamentFormat
  | t48 : TournamentFormat
deriving DecidableEq, Repr

/-- `interface Team` (frontend/src/types/index.ts): name, iso_code, elo_rating, flag_url. -/
structure Team where
  name : String
  iso_code : String
  elo_rating : ℚ
  flag_url : String
deriving DecidableEq, Repr

/-- `interface Groups { [key: string]: string[] }`: a JS object whose keys keep
insertion order, embedded as an association list from group label to team names. -/
abbrev Groups : Type := List (String × List String)

/-- `interface BracketMatch` (frontend/src/types/index.ts): team_a, team_b, winner, win_prob. -/
structure BracketMatch where
  team_a : String
  team_b : String
  winner : String
  win_prob : ℚ
deriving DecidableEq, Repr

/-- `interface GroupStanding` (frontend/src/types/index.ts lines 19-24): the wire
record has exactly the fields team, points, gd, gf. -/
structure GroupStanding where
  team : String
  points : ℤ
  gd : ℤ
  gf : ℤ
deriving DecidableEq, Repr

/-- `interface Bracket` (frontend/src/types/index.ts): optional round_of_32
(48-team only), optional round_of_16, quarter_finals, semi_finals, a single
final match and a single champion. -/
structure Bracket where
  round_of_32 : Option (List BracketMatch)
  round_of_16 : Option (List BracketMatch)
  quarter_finals : List BracketMatch
  semi_finals : List BracketMatch
  final : BracketMatch
  champion : String
deriving DecidableEq, Repr

/-- `interface SimulationResult` (frontend/src/types/index.ts): the count maps
are plain integer maps keyed by team name, embedded as association lists. -/
structure SimulationResult where
  champions : List (String × ℕ)
  finalists : List (String × ℕ)
  semifinalists : List (String × ℕ)
  n_sims : ℕ
  group_results : Option (List (String × List GroupStanding))
  bracket : Option Bracket
deriving DecidableEq, Repr

/-- `format === "32_team" ? 8 : 12` (BracketBuilder). -/
def numGroups : TournamentFormat → ℕ
  | TournamentFormat.t32 => 8
  | TournamentFormat.t48 => 12

/-- `createEmptyGroups` (BracketBuilder): one empty team list per group, the
group labels being `String.fromCharCode(65 + i)` for `i < numGroups`. -/
def createEmptyGroups (format : TournamentFormat) : Groups :=
  (List.range (numGroups format)).map (fun i => (String.mk [Char.ofNat (65 + i)], ([] : List String)))

/-- C6: for every tournament format, `createEmptyGroups` returns exactly 8 groups
for the 32-team format and exactly 12 for the 48-team format, keyed by the
consecutive capital letters starting at "A", every group an empty team list. -/
theorem C6_create_empty_groups :
    createEmptyGroups TournamentFormat.t32 =
      [("A", []), ("B", []), ("C", []), ("D", []), ("E", []), ("F", []), ("G", []), ("H", [])]
    ∧ createEmptyGroups TournamentFormat.t48 =
      [("A", []), ("B", []), ("C", []), ("D", []), ("E", []), ("F", []), ("G", []), ("H", []),
       ("I", []), ("J", []), ("K", []), ("L", [])] := by
  constructor <;> decide

/-- Prefix test on character lists, the building block for JS `String.includes`. -/
def isPre : List Char → List Char → Bool
  | [], _ => true
  | _ :: _, [] => false
  | a :: as, b :: bs => a == b && isPre as bs

/-- JS `haystack.includes(needle)`: `includesSub needle haystack` is true when
`needle` occurs as a contiguous substring of `haystack` (the empty needle matches). -/
def includesSub (needle : List Char) : List Char → Bool
  | [] => needle.isEmpty
  | c :: rest => isPre needle (c :: rest) || includesSub needle rest

/-- JS `s.toLowerCase()` on a team or query string, at the character-list level. -/
def lowerData (s : String) : List Char := s.data.map Char.toLower

/-- `filteredTeams` (TeamSearch component): drop teams already assigned, keep
those whose lower-cased name includes the lower-cased query, cap at 50 entries.
The `Set<string>` of assigned names is embedded as a list queried by `contains`. -/
def filteredTeams (teams : List Team) (assignedTeams : List String) (searchQuery : String) :
    List Team :=
  ((teams.filter fun team =>
      !(assignedTeams.contains team.name)
        && includesSub (lowerData searchQuery) (lowerData team.name)).take 50)

/-- C10: the filtered list shown by TeamSearch comes from the roster, contains no
assigned team, contains only teams whose lower-cased name includes the
lower-cased query as a substring, and has at most 50 entries. -/
theorem C10_team_search_filter (teams : List Team) (assignedTeams : List String)
    (searchQuery : String) :
    (∀ t ∈ filteredTeams teams assignedTeams searchQuery,
        t ∈ teams
        ∧ assignedTeams.contains t.name = false
        ∧ includesSub (lowerData searchQuery) (lowerData t.name) = true)
    ∧ (filteredTeams teams assignedTeams searchQuery).length ≤ 50 := by
  constructor
  · intro t ht
    have hmem := List.take_subset 50 _ ht
    rw [List.mem_filter] at hmem
    refine ⟨hmem.1, ?_, ?_⟩
    · have := hmem.2
      simp only [Bool.and_eq_true, Bool.not_eq_true'] at this
      exact this.1
    · have := hmem.2
      simp only [Bool.and_eq_true, Bool.not_eq_true'] at this
      exact this.2
  · unfold filteredTeams
    rw [List.length_take]
    exact min_le_left _ _

/-- C5 counterexample: contrary to the claim, a `GroupStanding` wire record
carries no information beyond team, points, gd and gf — two records agreeing on
those four fields are equal, so the record cannot also carry goals-against or a
rank distinguishing them. -/
theorem C5_group_standing_counterexample :
    ¬ ∃ s t : GroupStanding,
        s.team = t.team ∧ s.points = t.points ∧ s.gd = t.gd ∧ s.gf = t.gf ∧ s ≠ t := by
  rintro ⟨⟨ta, pa, ga, fa⟩, ⟨tb, pb, gb, fb⟩, h1, h2, h3, h4, hne⟩
  simp only at h1 h2 h3 h4
  subst h1; subst h2; subst h3; subst h4
  exact hne rfl

/-- C5 (amended): every `GroupStanding` record carries exactly the team, points,
goal difference and goals for — the four projections determine the record and
every combination of them is realized; there is no goals-against field and no
rank field (rank is implicit in the array order of `group_results`). -/
theorem C5_group_standing_fields :
    (∀ s : GroupStanding, s = GroupStanding.mk s.team s.points s.gd s.gf)
    ∧ (∀ (t : String) (p g f : ℤ),
        (GroupStanding.mk t p g f).team = t
        ∧ (GroupStanding.mk t p g f).points = p
        ∧ (GroupStanding.mk t p g f).gd = g
        ∧ (GroupStanding.mk t p g f).gf = f) := by
  constructor
  · rintro ⟨t, p, g, f⟩; rfl
  · intro t p g f; exact ⟨rfl, rfl, rfl, rfl⟩

/-- Modelled from the spec: the backend knockout resolver (its Python source is
not among the staged files) emits the wire `bracket` object; per §6, the 48-team
format's bracket additionally includes a `round_of_32` array absent from the
32-team format, both formats carrying a Round of 16, quarter finals, semi
finals, one final match and one champion. -/
def resolveBracketWire (format : TournamentFormat)
    (ro32 ro16 qf sf : List BracketMatch) (finalMatch : BracketMatch)
    (champion : String) : Bracket :=
  { round_of_32 := match format with
      | TournamentFormat.t48 => some ro32
      | TournamentFormat.t32 => none
    round_of_16 := some ro16
    quarter_finals := qf
    semi_finals := sf
    final := finalMatch
    champion := champion }

/-- C4: a bracket wire record nests per-round arrays of matches having exactly
the fields team_a, team_b, winner and win_prob; the final is a single such
record together with exactly one champion; and the round_of_32 array is present
exactly for the 48-team format. -/
theorem C4_bracket_wire_shape :
    (∀ m : BracketMatch, m = BracketMatch.mk m.team_a m.team_b m.winner m.win_prob)
    ∧ (∀ b : Bracket,
        b = Bracket.mk b.round_of_32 b.round_of_16 b.quarter_finals b.semi_finals
              b.final b.champion)
    ∧ (∀ (format : TournamentFormat) (ro32 ro16 qf sf : List BracketMatch)
        (finalMatch : BracketMatch) (champion : String),
        ((resolveBracketWire format ro32 ro16 qf sf finalMatch champion).round_of_32.isSome
            = true ↔ format = TournamentFormat.t48)
        ∧ (resolveBracketWire format ro32 ro16 qf sf finalMatch champion).final = finalMatch
        ∧ (resolveBracketWire format ro32 ro16 qf sf finalMatch champion).champion
            = champion) := by
  refine ⟨?_, ?_, ?_⟩
  · rintro ⟨a, b, w, p⟩; rfl
  · rintro ⟨r32, r16, qf, sf, f, c⟩; rfl
  · intro format ro32 ro16 qf sf finalMatch champion
    refine ⟨?_, rfl, rfl⟩
    cases format <;> simp [resolveBracketWire]

/-- JS `Math.round`: round half away from zero toward positive infinity. -/
def jsRound (q : ℚ) : ℤ := ⌊q + 1 / 2⌋

/-- `winProbPercent` computed once per MatchCard: `Math.round(match.win_prob * 100)`. -/
def winProbPercent (m : BracketMatch) : ℤ := jsRound (m.win_prob * 100)

/-- One team line rendered by MatchCard: the team name, its CSS class, and the
win-probability badge when one is rendered beside that team. -/
structure TeamSlot where
  name : String
  cls : String
  badge : Option ℤ
deriving DecidableEq, Repr

/-- The team line of MatchCard for `teamName` (team_a or team_b): class "winner"
or "loser" by comparing with `match.winner`; the `win-prob` span is rendered
only when `match.winner === teamName && showProbability`. -/
def renderTeamSlot (m : BracketMatch) (teamName : String) (sp : Bool) : TeamSlot :=
  { name := teamName
    cls := if m.winner == teamName then "winner" else "loser"
    badge := if m.winner == teamName && sp then some (winProbPercent m) else none }

/-- `MatchCard` renders the team_a line then the team_b line
(`sp` is the `showProbability` prop, defaulted to true at every call site). -/
def matchCard (m : BracketMatch) (sp : Bool) : TeamSlot × TeamSlot :=
  (renderTeamSlot m m.team_a sp, renderTeamSlot m m.team_b sp)

/-- C8: MatchCard renders the win-probability badge, valued
`Math.round(win_prob * 100)`, exactly beside a team line whose name equals the
match's winner field; a line styled "loser" never carries the badge. -/
theorem C8_match_card_badge (m : BracketMatch) (sp : Bool) :
    ((matchCard m sp).1.badge ≠ none ↔ m.winner = (matchCard m sp).1.name ∧ sp = true)
    ∧ ((matchCard m sp).2.badge ≠ none ↔ m.winner = (matchCard m sp).2.name ∧ sp = true)
    ∧ (∀ z : ℤ,
        (matchCard m sp).1.badge = some z ∨ (matchCard m sp).2.badge = some z →
          z = jsRound (m.win_prob * 100))
    ∧ ((matchCard m sp).1.cls = "loser" → (matchCard m sp).1.badge = none)
    ∧ ((matchCard m sp).2.cls = "loser" → (matchCard m sp).2.badge = none) := by
  simp only [matchCard, renderTeamSlot, winProbPercent]
  refine ⟨?_, ?_, ?_, ?_, ?_⟩
  · constructor
    · intro h
      by_contra hc
      rw [not_and_or] at hc
      rcases hc with hc | hc
      · have : (m.winner == m.team_a) = false := beq_eq_false_iff_ne.mpr hc
        simp [this] at h
      · have : sp = false := by cases sp <;> simp_all
        simp [this] at h
    · rintro ⟨hw, hs⟩
      have : (m.winner == m.team_a) = true := beq_iff_eq.mpr hw
      simp [this, hs]
  · constructor
    · intro h
      by_contra hc
      rw [not_and_or] at hc
      rcases hc with hc | hc
      · have : (m.winner == m.team_b) = false := beq_eq_false_iff_ne.mpr hc
        simp [this] at h
      · have : sp = false := by cases sp <;> simp_all
        simp [this] at h
    · rintro ⟨hw, hs⟩
      have : (m.winner == m.team_b) = true := beq_iff_eq.mpr hw
      simp [this, hs]
  · intro z hz
    rcases hz with hz | hz <;>
      · split at hz <;> simp_all
  · intro h
    split at h
    · simp_all
    · next hcond =>
      have : (m.winner == m.team_a && sp) = false := by
        cases hb : (m.winner == m.team_a) <;> simp_all
      simp [this]
  · intro h
    split at h
    · simp_all
    · next hcond =>
      have : (m.winner == m.team_b && sp) = false := by
        cases hb : (m.winner == m.team_b) <;> simp_all
      simp [this]

/-- One column of the bracket grid: a round title and its matches. -/
structure RoundColumn where
  title : String
  roundMatches : List BracketMatch
deriving DecidableEq, Repr

/-- The `rounds` list built by BracketVisualization: Round of 32 only for the
48-team format when the array is present (a present empty array is truthy in
JS, hence included), Round of 16 when present, then Quarter Finals, Semi
Finals, and the Final wrapped as a one-match round. -/
def roundsList (format : TournamentFormat) (b : Bracket) : List RoundColumn :=
  (match format, b.round_of_32 with
    | TournamentFormat.t48, some ms => [⟨"Round of 32", ms⟩]
    | _, _ => [])
  ++ (match b.round_of_16 with
    | some ms => [⟨"Round of 16", ms⟩]
    | none => [])
  ++ [⟨"Quarter Finals", b.quarter_finals⟩,
      ⟨"Semi Finals", b.semi_finals⟩,
      ⟨"Final", [b.final]⟩]

/-- C7: the rounds are ordered Round of 32 (only for the 48-team format with the
array present), Round of 16 (when present), Quarter Finals, Semi Finals, Final;
the final round holds exactly the one final match, and a Round of 32 column
appears exactly when the format is 48-team and the bracket carries the array. -/
theorem C7_bracket_rounds_order (format : TournamentFormat) (b : Bracket) :
    ((roundsList format b).map RoundColumn.title =
      (if format = TournamentFormat.t48 ∧ b.round_of_32.isSome = true
        then ["Round of 32"] else [])
      ++ (if b.round_of_16.isSome = true then ["Round of 16"] else [])
      ++ ["Quarter Finals", "Semi Finals", "Final"])
    ∧ ((roundsList format b).getLast? = some ⟨"Final", [b.final]⟩)
    ∧ (∀ ms : List BracketMatch,
        (RoundColumn.mk "Round of 32" ms ∈ roundsList format b ↔
          format = TournamentFormat.t48 ∧ b.round_of_32 = some ms)) := by
  refine ⟨?_, ?_, ?_⟩
  · cases format <;> rcases h32 : b.round_of_32 with _ | ms32 <;>
      rcases h16 : b.round_of_16 with _ | ms16 <;>
      simp [roundsList, h32, h16]
  · cases format <;> rcases h32 : b.round_of_32 with _ | ms32 <;>
      rcases h16 : b.round_of_16 with _ | ms16 <;>
      simp [roundsList, h32, h16, List.getLast?]
  · intro ms
    cases format <;> rcases h32 : b.round_of_32 with _ | ms32 <;>
      rcases h16 : b.round_of_16 with _ | ms16 <;>
      simp [roundsList, h32, h16, RoundColumn.mk.injEq] <;> exact eq_comm

/-- `Object.entries(..).sort(([, a], [, b]) => b - a)`: the count map's entries
sorted by count descending (a stable sort, as V8's `Array.prototype.sort`). -/
def sortDescByCount (l : List (String × ℕ)) : List (String × ℕ) :=
  l.mergeSort (fun a b => decide (b.2 ≤ a.2))

/-- `sortedChampions` (ResultsPanel): entries of `results.champions` sorted by
count descending, sliced to the top 15. -/
def sortedChampions (r : SimulationResult) : List (String × ℕ) :=
  (sortDescByCount r.champions).take 15

/-- The championship chart rows rendered by ResultsPanel: team, count, and
`probability = (count / results.n_sims) * 100`. -/
def championChartRows (r : SimulationResult) : List (String × ℕ × ℚ) :=
  (sortedChampions r).map fun p => (p.1, p.2, ((p.2 : ℚ) / (r.n_sims : ℚ)) * 100)

/-- The "Most Likely Finalists" rows: rendered only when the finalists map is
non-empty, sorted by count descending, sliced to the top 8, each showing
`(count / results.n_sims) * 100`. -/
def finalistRows (r : SimulationResult) : List (String × ℕ × ℚ) :=
  if r.finalists.isEmpty then []
  else
    ((sortDescByCount r.finalists).take 8).map fun p =>
      (p.1, p.2, ((p.2 : ℚ) / (r.n_sims : ℚ)) * 100)

/-- C3: every row ResultsPanel displays — champions chart and finalists list
alike — pairs a (team, count) entry of the corresponding result map with the
probability `(count / n_sims) * 100` percent, exactly count over trial count. -/
theorem C3_results_panel_probabilities (r : SimulationResult) :
    (∀ row ∈ championChartRows r,
        (row.1, row.2.1) ∈ r.champions
        ∧ row.2.2 = ((row.2.1 : ℚ) / (r.n_sims : ℚ)) * 100)
    ∧ (∀ row ∈ finalistRows r,
        (row.1, row.2.1) ∈ r.finalists
        ∧ row.2.2 = ((row.2.1 : ℚ) / (r.n_sims : ℚ)) * 100) := by
  constructor
  · intro row hrow
    rw [championChartRows, List.mem_map] at hrow
    obtain ⟨p, hp, rfl⟩ := hrow
    refine ⟨?_, rfl⟩
    have hsort : p ∈ sortDescByCount r.champions := List.take_subset 15 _ hp
    exact (List.mergeSort_perm r.champions _).subset hsort
  · intro row hrow
    rw [finalistRows] at hrow
    split at hrow
    · simp at hrow
    · rw [List.mem_map] at hrow
      obtain ⟨p, hp, rfl⟩ := hrow
      refine ⟨?_, rfl⟩
      have hsort : p ∈ sortDescByCount r.finalists := List.take_subset 8 _ hp
      exact (List.mergeSort_perm r.finalists _).subset hsort

/-- The body of the POST /api/simulate request issued by `handleRunSimulation`:
the groups map, the format, and the fixed `n_sims: 200` web default. -/
structure SimRequest where
  groups : Groups
  format : TournamentFormat
  n_sims : ℕ
deriving DecidableEq, Repr

/-- `incompleteGroups` (handleRunSimulation): labels of the groups whose team
count differs from the required 4. -/
def incompleteGroups (groups : Groups) : List String :=
  (groups.filter fun p => p.2.length != 4).map Prod.fst

/-- The request `handleRunSimulation` issues: none when validation fails,
otherwise the POST body with `n_sims: 200`. -/
def simulateRequest (groups : Groups) (format : TournamentFormat) : Option SimRequest :=
  if (incompleteGroups groups).isEmpty then some ⟨groups, format, 200⟩ else none

/-- The alert `handleRunSimulation` raises when validation fails: the offending
group labels (none when every group holds exactly 4 teams). -/
def validationAlert (groups : Groups) : Option (List String) :=
  if (incompleteGroups groups).isEmpty then none else some (incompleteGroups groups)

/-- The `results` state after `handleRunSimulation`: unchanged when validation
fails; otherwise replaced by the server's response when the fetch succeeds and
left unchanged when it fails (the catch branch only alerts). -/
def runSimulationResults (groups : Groups) (format : TournamentFormat)
    (prev : Option SimulationResult)
    (server : SimRequest → Option SimulationResult) : Option SimulationResult :=
  match simulateRequest groups format with
  | none => prev
  | some req =>
    match server req with
    | some r => some r
    | none => prev

/-- C2: handleRunSimulation issues the POST /api/simulate request exactly when
every group holds 4 team names; the reported labels are exactly the groups
whose team count differs from 4; and on a validation failure no request is
sent, the offending labels are alerted, and the results state is unchanged. -/
theorem C2_run_simulation_validation (groups : Groups) (format : TournamentFormat)
    (prev : Option SimulationResult) (server : SimRequest → Option SimulationResult) :
    ((simulateRequest groups format).isSome = true ↔ ∀ p ∈ groups, p.2.length = 4)
    ∧ (∀ l : String,
        l ∈ incompleteGroups groups ↔ ∃ ts, (l, ts) ∈ groups ∧ ts.length ≠ 4)
    ∧ ((incompleteGroups groups).isEmpty = false →
        simulateRequest groups format = none
        ∧ validationAlert groups = some (incompleteGroups groups)
        ∧ runSimulationResults groups format prev server = prev) := by
  refine ⟨?_, ?_, ?_⟩
  · rw [simulateRequest]
    constructor
    · intro h p hp
      by_contra hne
      have hmem : p ∈ groups.filter fun q => q.2.length != 4 :=
        List.mem_filter.mpr ⟨hp, bne_iff_ne.mpr hne⟩
      split at h
      · next hemp =>
        rw [List.isEmpty_iff] at hemp
        have : p.1 ∈ incompleteGroups groups := List.mem_map.mpr ⟨p, hmem, rfl⟩
        rw [hemp] at this
        simp at this
      · simp at h
    · intro hall
      have hemp : incompleteGroups groups = [] := by
        rw [incompleteGroups, List.map_eq_nil_iff, List.filter_eq_nil_iff]
        intro p hp
        simp [hall p hp]
      simp [hemp]
  · intro l
    rw [incompleteGroups]
    constructor
    · intro h
      rw [List.mem_map] at h
      obtain ⟨p, hp, rfl⟩ := h
      rw [List.mem_filter] at hp
      exact ⟨p.2, hp.1, bne_iff_ne.mp hp.2⟩
    · rintro ⟨ts, hts, hne⟩
      exact List.mem_map.mpr ⟨(l, ts), List.mem_filter.mpr ⟨hts, bne_iff_ne.mpr hne⟩, rfl⟩
  · intro hfail
    have : ¬ (incompleteGroups groups).isEmpty = true := by simp [hfail]
    refine ⟨?_, ?_, ?_⟩
    · simp [simulateRequest, this]
    · simp [validationAlert, this]
    · simp [runSimulationResults, simulateRequest, this]

/-- Modelled from the spec: one stochastic trial of the orchestrator (its
Python source is not among the staged files) resolves the bracket to a
champion, the two finalists, and the four semifinalists (§4.4). -/
structure TrialOutcome where
  champion : String
  finalist_a : String
  finalist_b : String
  semi_a : String
  semi_b : String
  semi_c : String
  semi_d : String
deriving DecidableEq, Repr

/-- Modelled from the spec: the accumulator `simulate` returns — an integer
count map per outcome kind, keyed by team name, plus the trial count (§3, §4.4). -/
structure SimulationAccumulator where
  champions : List (String × ℕ)
  finalists : List (String × ℕ)
  semifinalists : List (String × ℕ)
  n_sims : ℕ
deriving DecidableEq, Repr

/-- Increment a team's entry of a count map by 1, inserting it at count 1 when absent. -/
def bump : List (String × ℕ) → String → List (String × ℕ)
  | [], t => [(t, 1)]
  | (s, n) :: rest, t =>
    if s == t then (s, n + 1) :: rest else (s, n) :: bump rest t

/-- The sum of a count map's values. -/
def sumCounts (l : List (String × ℕ)) : ℕ := (l.map Prod.snd).sum

/-- Modelled from the spec: the orchestrator's reduction step for one trial —
increment the champion by 1, both finalists by 1 each, and all four
semifinalists by 1 each (§4.4). -/
def recordTrial (acc : SimulationAccumulator) (tr : TrialOutcome) : SimulationAccumulator :=
  { acc with
    champions := bump acc.champions tr.champion
    finalists := bump (bump acc.finalists tr.finalist_a) tr.finalist_b
    semifinalists :=
      bump (bump (bump (bump acc.semifinalists tr.semi_a) tr.semi_b) tr.semi_c) tr.semi_d }

/-- Modelled from the spec: `simulate` runs the n_sims independent trials and
folds their outcomes into the accumulator, `n_sims` being the trial count (§4.4). -/
def simulate (trials : List TrialOutcome) : SimulationAccumulator :=
  trials.foldl recordTrial
    { champions := [], finalists := [], semifinalists := [], n_sims := trials.length }

theorem sumCounts_bump (l : List (String × ℕ)) (t : String) :
    sumCounts (bump l t) = sumCounts l + 1 := by
  induction l with
  | nil => simp [bump, sumCounts]
  | cons p rest ih =>
    obtain ⟨s, n⟩ := p
    rw [bump]
    split
    · simp [sumCounts]
      omega
    · simp only [sumCounts, List.map_cons, List.sum_cons] at ih ⊢
      omega

theorem simulate_foldl_counts (trials : List TrialOutcome) (acc : SimulationAccumulator) :
    sumCounts (trials.foldl recordTrial acc).champions
        = sumCounts acc.champions + trials.length
    ∧ sumCounts (trials.foldl recordTrial acc).finalists
        = sumCounts acc.finalists + 2 * trials.length
    ∧ sumCounts (trials.foldl recordTrial acc).semifinalists
        = sumCounts acc.semifinalists + 4 * trials.length
    ∧ (trials.foldl recordTrial acc).n_sims = acc.n_sims := by
  induction trials generalizing acc with
  | nil => simp
  | cons tr rest ih =>
    obtain ⟨ihc, ihf, ihs, ihn⟩ := ih (recordTrial acc tr)
    rw [List.foldl_cons]
    refine ⟨?_, ?_, ?_, ?_⟩
    · rw [ihc, recordTrial]
      simp only [sumCounts_bump, List.length_cons]
      omega
    · rw [ihf, recordTrial]
      simp only [sumCounts_bump, List.length_cons]
      omega
    · rw [ihs, recordTrial]
      simp only [sumCounts_bump, List.length_cons]
      omega
    · rw [ihn, recordTrial]

/-- C1: over any completed run of `simulate`, in exact integer arithmetic, the
champions counts sum to n_sims, the finalists counts to 2 * n_sims, and the
semifinalists counts to 4 * n_sims — each trial increments the champion by 1,
both finalists by 1 each, and all four semifinalists by 1 each. -/
theorem C1_simulate_count_sums (trials : List TrialOutcome) :
    (simulate trials).n_sims = trials.length
    ∧ sumCounts (simulate trials).champions = (simulate trials).n_sims
    ∧ sumCounts (simulate trials).finalists = 2 * (simulate trials).n_sims
    ∧ sumCounts (simulate trials).semifinalists = 4 * (simulate trials).n_sims := by
  obtain ⟨hc, hf, hs, hn⟩ :=
    simulate_foldl_counts trials
      { champions := [], finalists := [], semifinalists := [], n_sims := trials.length }
  rw [simulate]
  refine ⟨hn, ?_, ?_, ?_⟩
  · rw [hc, hn]; simp [sumCounts]
  · rw [hf, hn]; simp [sumCounts]
  · rw [hs, hn]; simp [sumCounts]

/-- The first phase of `handleDragEnd`: remove the dragged team from every
group (`newGroups[g].filter((t) => t !== teamName)` over all keys). -/
def removeEverywhere (groups : Groups) (teamName : String) : Groups :=
  groups.map fun p => (p.1, p.2.filter fun t => t != teamName)

/-- Index into the groups object (`newGroups[groupName]`): the team list stored
under the first matching group label (labels are unique in every UI state). -/
def lookupGroup (groups : Groups) (name : String) : Option (List String) :=
  match groups with
  | [] => none
  | p :: rest => if p.1 == name then some p.2 else lookupGroup rest name

/-- Overwrite the team list stored under a group label
(`newGroups[groupName] = [...]` on the copied object). -/
def setGroupTeams (groups : Groups) (name : String) (ts : List String) : Groups :=
  groups.map fun p => if p.1 == name then (p.1, ts) else p

/-- `handleDragEnd` (BracketBuilder): when the drop target is a group droppable
(`targetId.startsWith("group-")`, the group label being the rest of the id),
first remove the dragged team from every group, then append it to the target
group only when that group then holds fewer than 4 teams — otherwise the whole
update is discarded and the state is unchanged, as it is for a drop outside
any group droppable. -/
def handleDragEnd (groups : Groups) (activeId overId : String) : Groups :=
  if isPre "group-".data overId.data then
    match lookupGroup (removeEverywhere groups activeId) (String.mk (overId.data.drop 6)) with
    | none => groups
    | some ts =>
      if ts.length < 4 then
        setGroupTeams (removeEverywhere groups activeId) (String.mk (overId.data.drop 6))
          (ts ++ [activeId])
      else groups
  else groups

/-- `handleRemoveTeam` (BracketBuilder): filter the named team out of the named
group, leaving every other group untouched. -/
def handleRemoveTeam (groups : Groups) (groupName teamName : String) : Groups :=
  groups.map fun p =>
    if p.1 == groupName then (p.1, p.2.filter fun t => t != teamName) else p

/-- `handleClearAll` (BracketBuilder): reset to the empty groups of the current format. -/
def handleClearAll (format : TournamentFormat) : Groups := createEmptyGroups format

/-- The group-editing operations reachable from the BracketBuilder UI. -/
inductive GroupOp where
  | dragEnd (activeId overId : String)
  | removeTeam (groupName teamName : String)
  | clearAll (format : TournamentFormat)
deriving DecidableEq, Repr

def applyOp (groups : Groups) : GroupOp → Groups
  | GroupOp.dragEnd a o => handleDragEnd groups a o
  | GroupOp.removeTeam g t => handleRemoveTeam groups g t
  | GroupOp.clearAll f => handleClearAll f

def applyOps (ops : List GroupOp) (groups : Groups) : Groups := ops.foldl applyOp groups

/-- How often a team name occurs across all groups (summed over every group's list). -/
def occ (groups : Groups) (t : String) : ℕ := (groups.map fun p => p.2.count t).sum

/-- The state invariant: distinct group labels, at most 4 teams per group, and
each team name occurring at most once across all groups. -/
def GroupsInv (groups : Groups) : Prop :=
  (groups.map Prod.fst).Nodup
  ∧ (∀ p ∈ groups, p.2.length ≤ 4)
  ∧ (∀ t, occ groups t ≤ 1)

theorem occ_cons (p : String × List String) (g : Groups) (t : String) :
    occ (p :: g) t = p.2.count t + occ g t := by
  simp [occ]

theorem keys_map_of_fst_eq (f : String × List String → String × List String)
    (hf : ∀ p, (f p).1 = p.1) (g : Groups) :
    (g.map f).map Prod.fst = g.map Prod.fst := by
  induction g with
  | nil => rfl
  | cons p rest ih => rw [List.map_cons, List.map_cons, List.map_cons, hf, ih]

theorem occ_map_le (f : String × List String → String × List String)
    (hf : ∀ p s, (f p).2.count s ≤ p.2.count s) (g : Groups) (s : String) :
    occ (g.map f) s ≤ occ g s := by
  induction g with
  | nil => exact Nat.le_refl _
  | cons p rest ih =>
    rw [List.map_cons, occ_cons, occ_cons]
    exact Nat.add_le_add (hf p s) ih

theorem sizes_map_of_len_le (f : String × List String → String × List String)
    (hf : ∀ p, (f p).2.length ≤ p.2.length) (g : Groups)
    (hg : ∀ p ∈ g, p.2.length ≤ 4) :
    ∀ p ∈ g.map f, p.2.length ≤ 4 := by
  intro p hp
  rw [List.mem_map] at hp
  obtain ⟨q, hq, rfl⟩ := hp
  exact le_trans (hf q) (hg q hq)

theorem setGroupTeams_fst (name : String) (ts : List String)
    (p : String × List String) :
    (if (p.1 == name) = true then (p.1, ts) else p).1 = p.1 := by
  by_cases h : (p.1 == name) = true
  · rw [if_pos h]
  · rw [if_neg h]

theorem keys_removeEverywhere (g : Groups) (x : String) :
    (removeEverywhere g x).map Prod.fst = g.map Prod.fst :=
  keys_map_of_fst_eq (fun p => (p.1, p.2.filter fun t => t != x)) (fun _ => rfl) g

theorem keys_setGroupTeams (g : Groups) (name : String) (ts : List String) :
    (setGroupTeams g name ts).map Prod.fst = g.map Prod.fst :=
  keys_map_of_fst_eq _ (setGroupTeams_fst name ts) g

theorem keys_handleRemoveTeam (g : Groups) (name t : String) :
    (handleRemoveTeam g name t).map Prod.fst = g.map Prod.fst := by
  apply keys_map_of_fst_eq
  intro p
  by_cases h : (p.1 == name) = true
  · rw [if_pos h]
  · rw [if_neg h]

theorem occ_removeEverywhere_le (g : Groups) (x s : String) :
    occ (removeEverywhere g x) s ≤ occ g s :=
  occ_map_le _ (fun p s => (List.filter_sublist p.2).count_le s) g s

theorem occ_removeEverywhere_self (g : Groups) (x : String) :
    occ (removeEverywhere g x) x = 0 := by
  induction g with
  | nil => rfl
  | cons p rest ih =>
    rw [removeEverywhere, List.map_cons, occ_cons]
    rw [removeEverywhere] at ih
    rw [ih]
    have hx : x ∉ p.2.filter fun t => t != x := by
      intro hmem
      rw [List.mem_filter] at hmem
      simp at hmem
    rw [List.count_eq_zero.mpr hx]

theorem occ_handleRemoveTeam_le (g : Groups) (name t s : String) :
    occ (handleRemoveTeam g name t) s ≤ occ g s := by
  apply occ_map_le
  intro p u
  by_cases h : (p.1 == name) = true
  · rw [if_pos h]
    exact (List.filter_sublist p.2).count_le u
  · rw [if_neg h]

theorem sizes_removeEverywhere (g : Groups) (x : String)
    (h : ∀ p ∈ g, p.2.length ≤ 4) :
    ∀ p ∈ removeEverywhere g x, p.2.length ≤ 4 :=
  sizes_map_of_len_le _ (fun p => List.length_filter_le _ p.2) g h

theorem sizes_setGroupTeams (g : Groups) (name : String) (ts : List String)
    (hg : ∀ p ∈ g, p.2.length ≤ 4) (hts : ts.length ≤ 4) :
    ∀ p ∈ setGroupTeams g name ts, p.2.length ≤ 4 := by
  intro p hp
  rw [setGroupTeams, List.mem_map] at hp
  obtain ⟨q, hq, rfl⟩ := hp
  by_cases h : (q.1 == name) = true
  · rw [if_pos h]
    exact hts
  · rw [if_neg h]
    exact hg q hq

theorem setGroupTeams_not_mem (g : Groups) (name : String) (ts : List String)
    (h : name ∉ g.map Prod.fst) : setGroupTeams g name ts = g := by
  induction g with
  | nil => rfl
  | cons p rest ih =>
    rw [List.map_cons, List.mem_cons, not_or] at h
    rw [setGroupTeams, List.map_cons]
    have hne : (p.1 == name) = false :=
      beq_eq_false_iff_ne.mpr (fun he => h.1 he.symm)
    rw [if_neg (by simp [hne])]
    rw [setGroupTeams] at ih
    rw [ih h.2]

theorem count_singleton_eq_ite (a s : String) :
    List.count s [a] = if a = s then 1 else 0 := by
  by_cases h : a = s
  · subst h
    rw [if_pos rfl]
    simp
  · rw [if_neg h]
    apply List.count_eq_zero.mpr
    intro hmem
    rw [List.mem_singleton] at hmem
    exact h hmem.symm

theorem occ_setGroupTeams_append (g : Groups) (name a : String) (ts : List String)
    (s : String) (hk : (g.map Prod.fst).Nodup) (hl : lookupGroup g name = some ts) :
    occ (setGroupTeams g name (ts ++ [a])) s = occ g s + (if a = s then 1 else 0) := by
  induction g with
  | nil => simp [lookupGroup] at hl
  | cons p rest ih =>
    rw [List.map_cons, List.nodup_cons] at hk
    rw [setGroupTeams, List.map_cons]
    by_cases hp : (p.1 == name) = true
    · rw [lookupGroup, if_pos hp] at hl
      have hts : ts = p.2 := by injection hl with h; exact h.symm
      rw [if_pos hp, occ_cons, occ_cons]
      have hname : name ∉ rest.map Prod.fst := by
        rw [← beq_iff_eq.mp hp]
        exact hk.1
      have hrest :
          List.map (fun q => if (q.1 == name) = true then (q.1, ts ++ [a]) else q) rest
            = rest := setGroupTeams_not_mem rest name (ts ++ [a]) hname
      rw [hrest, hts, List.count_append, count_singleton_eq_ite]
      omega
    · rw [lookupGroup, if_neg hp] at hl
      rw [if_neg hp, occ_cons, occ_cons]
      have := ih hk.2 hl
      rw [setGroupTeams] at this
      omega

theorem inv_createEmptyGroups (format : TournamentFormat) :
    GroupsInv (createEmptyGroups format) := by
  refine ⟨?_, ?_, ?_⟩
  · cases format <;> decide
  · intro p hp
    rw [createEmptyGroups, List.mem_map] at hp
    obtain ⟨i, _, rfl⟩ := hp
    simp
  · intro t
    rw [occ, createEmptyGroups, List.map_map]
    have hz : ((List.range (numGroups format)).map
        ((fun p : String × List String => p.2.count t)
          ∘ fun i => (String.mk [Char.ofNat (65 + i)], ([] : List String))))
        = (List.range (numGroups format)).map fun _ => 0 := by
      apply List.map_congr_left
      intro i _
      simp [Function.comp]
    rw [hz]
    simp

theorem inv_handleRemoveTeam (g : Groups) (name t : String) (h : GroupsInv g) :
    GroupsInv (handleRemoveTeam g name t) := by
  obtain ⟨hk, hs, ho⟩ := h
  refine ⟨by rw [keys_handleRemoveTeam]; exact hk, ?_, ?_⟩
  · apply sizes_map_of_len_le _ _ g hs
    intro p
    by_cases hc : (p.1 == name) = true
    · rw [if_pos hc]
      exact List.length_filter_le _ p.2
    · rw [if_neg hc]
  · intro s
    exact le_trans (occ_handleRemoveTeam_le g name t s) (ho s)

theorem inv_handleDragEnd (g : Groups) (a o : String) (h : GroupsInv g) :
    GroupsInv (handleDragEnd g a o) := by
  obtain ⟨hk, hs, ho⟩ := h
  rw [handleDragEnd]
  by_cases hpre : isPre "group-".data o.data = true
  · rw [if_pos hpre]
    rcases hl : lookupGroup (removeEverywhere g a) (String.mk (o.data.drop 6))
        with _ | ts
    · exact ⟨hk, hs, ho⟩
    · show GroupsInv (if ts.length < 4 then
          setGroupTeams (removeEverywhere g a) (String.mk (o.data.drop 6)) (ts ++ [a])
        else g)
      by_cases hlen : ts.length < 4
      · rw [if_pos hlen]
        have hk' : ((removeEverywhere g a).map Prod.fst).Nodup := by
          rw [keys_removeEverywhere]
          exact hk
        refine ⟨?_, ?_, ?_⟩
        · rw [keys_setGroupTeams, keys_removeEverywhere]
          exact hk
        · apply sizes_setGroupTeams _ _ _ (sizes_removeEverywhere g a hs)
          rw [List.length_append]
          simp only [List.length_cons, List.length_nil]
          omega
        · intro s
          rw [occ_setGroupTeams_append _ _ a ts s hk' hl]
          by_cases has : a = s
          · rw [if_pos has, ← has, occ_removeEverywhere_self g a]
          · rw [if_neg has]
            have h1 := occ_removeEverywhere_le g a s
            have h2 := ho s
            omega
      · rw [if_neg hlen]
        exact ⟨hk, hs, ho⟩
  · rw [if_neg hpre]
    exact ⟨hk, hs, ho⟩

theorem inv_applyOp (g : Groups) (op : GroupOp) (h : GroupsInv g) :
    GroupsInv (applyOp g op) := by
  cases op with
  | dragEnd a o => exact inv_handleDragEnd g a o h
  | removeTeam name t => exact inv_handleRemoveTeam g name t h
  | clearAll f => exact inv_createEmptyGroups f

theorem inv_applyOps (ops : List GroupOp) (g : Groups) (h : GroupsInv g) :
    GroupsInv (applyOps ops g) := by
  induction ops generalizing g with
  | nil => exact h
  | cons op rest ih =>
    rw [applyOps, List.foldl_cons]
    exact ih (applyOp g op) (inv_applyOp g op h)

/-- C9: from the empty groups of either format, any sequence of handleDragEnd,
handleRemoveTeam and handleClearAll operations keeps every group at no more
than 4 team names and every team name in at most one group. -/
theorem C9_group_edit_invariant (format : TournamentFormat) (ops : List GroupOp) :
    (∀ p ∈ applyOps ops (createEmptyGroups format), p.2.length ≤ 4)
    ∧ (∀ t, occ (applyOps ops (createEmptyGroups format)) t ≤ 1) := by
  have h := inv_applyOps ops (createEmptyGroups format) (inv_createEmptyGroups format)
  exact ⟨h.2.1, h.2.2⟩

end WorldCupPrediction
